import Mathlib

/-!
Verification development for the Schedule-Viewer repository
(`src/ViewSchedule.py`, a single-file Streamlit timetable viewer).

The Python source is shallowly embedded below.  Conventions:
* pandas cell values are `Option String` (`none` stands for NaN / a missing
  cell; `pd.notna v` is `v.isSome`);
* Python `str.lower` / `str.strip` are embedded as `lowerStr` / `trimStr`,
  which act on the underlying character list (ASCII-faithful);
* Python string comparison (used by `sorted` and `groupby`) is embedded as
  the code-point lexicographic comparator `cmpChars`;
* Python `sorted` is embedded as the stable insertion sort `insSortBy`;
* the quota state held in `st.session_state` is the explicit record
  `SessionState`, threaded through `handleRequest`.
-/

/-- Python `str.lower` on a string (code-point wise, as `Char.toLower`). -/
def lowerStr (s : String) : String := ⟨s.data.map Char.toLower⟩

/-- Python `str.strip` on a string: drop leading and trailing whitespace. -/
def trimStr (s : String) : String :=
  ⟨((s.data.dropWhile Char.isWhitespace).reverse.dropWhile Char.isWhitespace).reverse⟩

/-- Code-point lexicographic three-way comparison of character lists; this is
how Python compares two strings. -/
def cmpChars : List Char → List Char → Ordering
  | [], [] => .eq
  | [], _ :: _ => .lt
  | _ :: _, [] => .gt
  | a :: as, b :: bs =>
    if a.toNat < b.toNat then .lt
    else if b.toNat < a.toNat then .gt
    else cmpChars as bs

/-- Python `a <= b` on strings, as a Bool. -/
def pyStrLe (a b : String) : Bool := cmpChars a.data b.data != Ordering.gt

/-- Stable insertion into a sorted list: `x` goes in front of the first
element `y` with `le x y`, so equal keys keep their original order
(Python `sorted` is stable). -/
def insertBy (le : α → α → Bool) (x : α) : List α → List α
  | [] => [x]
  | y :: ys => if le x y then x :: y :: ys else y :: insertBy le x ys

/-- Stable insertion sort, the embedding of Python `sorted`. -/
def insSortBy (le : α → α → Bool) : List α → List α
  | [] => []
  | x :: xs => insertBy le x (insSortBy le xs)

/-- Helper for `dedupFirst`: keep elements not seen before. -/
def dedupGo (seen : List String) : List String → List String
  | [] => []
  | x :: xs => if seen.contains x then dedupGo seen xs else x :: dedupGo (x :: seen) xs

/-- Keep the first occurrence of every element, like `pandas.Series.unique`. -/
def dedupFirst (l : List String) : List String := dedupGo [] l

/-- Does `pat` occur at the head of `s`? -/
def leadMatch : List Char → List Char → Bool
  | [], _ => true
  | _ :: _, [] => false
  | a :: as, b :: bs => a == b && leadMatch as bs

/-- Substring containment on character lists (Python `pat in s`). -/
def listContains (s pat : List Char) : Bool :=
  match s with
  | [] => leadMatch pat []
  | _ :: s' => leadMatch pat s || listContains s' pat

/-- Case-insensitive substring containment on strings. -/
def substrCI (hay needle : String) : Bool :=
  listContains (lowerStr hay).data (lowerStr needle).data

/-! ### A fragment of Python regular expressions

`ViewSchedule.py` line 127 passes the raw (lowercased) user query to
`pandas.Series.str.contains`, whose default is `regex=True`: the query is
compiled with Python `re` and matched with `re.search`.  The fragment below
gives a semantics to patterns built from literal characters, `.`, and the
postfix quantifiers `*`, `+`, `?`.  `pyParse` returns `none` for every other
pattern; this covers the patterns on which Python `re.compile` raises
`re.error` (for instance a lone `(`, a lone `[`, a quantifier with nothing to
repeat such as `*ab` or `a**`, a trailing backslash) as well as the few
constructs (`|`, `^`, `$`, `]`, braces, escapes) to which this development
assigns no semantics and about which it proves nothing. -/

/-- One atom of the pattern fragment: a literal character or `.` . -/
inductive PAtom
  | chr (c : Char)
  | dot
deriving DecidableEq

/-- Quantifier attached to an atom. -/
inductive PQuant
  | one
  | star
  | plus
  | opt
deriving DecidableEq

/-- A compiled pattern: a sequence of quantified atoms. -/
abbrev PItem := PAtom × PQuant

/-- Characters that are `re` metacharacters outside the fragment. -/
def unsupportedMeta (c : Char) : Bool :=
  c == '(' || c == ')' || c == '[' || c == ']' || c == '\\' ||
  c == '|' || c == '^' || c == '$' || c == '{' || c == '}'

/-- The atom denoted by an ordinary pattern character. -/
def atomOf (c : Char) : PAtom := if c == '.' then PAtom.dot else PAtom.chr c

/-- The quantifier denoted by `*`, `+` or `?`. -/
def quantOf (c : Char) : PQuant :=
  if c == '*' then PQuant.star else if c == '+' then PQuant.plus else PQuant.opt

/-- Worker for `pyParse`: scan the pattern left to right, keeping the items
parsed so far in reverse; a quantifier character attaches to the preceding
unquantified atom, and anything ill-formed or unmodelled collapses the
accumulator to `none`. -/
def pyParseGo (acc : Option (List PItem)) : List Char → Option (List PItem)
  | [] => acc
  | c :: rest =>
    if c == '*' || c == '+' || c == '?' then
      match acc with
      | some ((a, PQuant.one) :: items) => pyParseGo (some ((a, quantOf c) :: items)) rest
      | _ => pyParseGo none rest
    else if unsupportedMeta c then pyParseGo none rest
    else pyParseGo (acc.map (fun items => (atomOf c, PQuant.one) :: items)) rest

/-- Compile a pattern string of the fragment; `none` models `re.error` /
an unmodelled construct (see the section comment). -/
def pyParse (cs : List Char) : Option (List PItem) :=
  (pyParseGo (some []) cs).map List.reverse

/-- Does the atom match one character? -/
def atomMatch : PAtom → Char → Bool
  | .chr c, d => c == d
  | .dot, _ => true

/-- Fuelled matcher: does the pattern match some prefix of `cs`?  Every
recursive call strictly decreases `ps.length + cs.length`, so the fuel
`ps.length + cs.length + 1` used by `matchHere` always suffices. -/
def matchHereF : Nat → List PItem → List Char → Bool
  | 0, _, _ => false
  | _ + 1, [], _ => true
  | f + 1, (a, .one) :: ps, cs =>
    match cs with
    | [] => false
    | c :: cs' => atomMatch a c && matchHereF f ps cs'
  | f + 1, (a, .opt) :: ps, cs =>
    matchHereF f ps cs ||
      (match cs with
       | [] => false
       | c :: cs' => atomMatch a c && matchHereF f ps cs')
  | f + 1, (a, .star) :: ps, cs =>
    matchHereF f ps cs ||
      (match cs with
       | [] => false
       | c :: cs' => atomMatch a c && matchHereF f ((a, PQuant.star) :: ps) cs')
  | f + 1, (a, .plus) :: ps, cs =>
    match cs with
    | [] => false
    | c :: cs' => atomMatch a c && matchHereF f ((a, PQuant.star) :: ps) cs'

/-- Does the pattern match starting at this position? -/
def matchHere (ps : List PItem) (cs : List Char) : Bool :=
  matchHereF (ps.length + cs.length + 1) ps cs

/-- Python `re.search`: does the pattern match at some position of `cs`? -/
def pySearch (ps : List PItem) (cs : List Char) : Bool :=
  matchHere ps cs ||
    (match cs with
     | [] => false
     | _ :: cs' => pySearch ps cs')

/-! ### Data model and configuration (`ViewSchedule.py` lines 26-28) -/

/-- `DEFAULT_PERIOD_COUNT = 9` (line 27). -/
def DEFAULT_PERIOD_COUNT : Nat := 9

/-- `MAX_ATTEMPTS = 5` (line 28), the session view quota. -/
def MAX_ATTEMPTS : Nat := 5

/-- One timetable row after loading: the `tname` and `day` columns plus the
remaining cells keyed by (lowercased) column name.  `none` in a cell stands
for NaN / a missing value; all cell text is kept as strings. -/
structure Row where
  tname : String
  day : String
  cells : List (String × Option String)
deriving DecidableEq

/-- `r.get(p, None)` (line 59): the cell of column `p`, `none` when the
column is absent or the value is NaN. -/
def cellOf (r : Row) (p : String) : Option String :=
  match r.cells.lookup p with
  | some v => v
  | none => none

/-- The cell test of line 60, `pd.notna(v) and str(v).strip() != ""`:
a cell counts as a period exactly when it is present and not whitespace. -/
def cellCounts : Option String → Bool
  | none => false
  | some s => !(trimStr s == "")

/-- Number of counted period cells of one row (inner loop, lines 58-61). -/
def rowPeriods (expected : List String) (r : Row) : Nat :=
  (expected.filter (fun p => cellCounts (cellOf r p))).length

/-- Period count of the rows whose raw `day` equals `d`
(one `groupby` group, lines 56-61). -/
def dayCount (rows : List Row) (expected : List String) (d : String) : Nat :=
  ((rows.filter (fun r => r.day == d)).map (rowPeriods expected)).sum

/-- `count_periods_for_rows` (lines 50-65).  `rows.groupby('day')` visits the
distinct raw day values in sorted (Python string) order; each group
contributes one `per_day` entry and its count is added to `total`; finally
`per_day` is sorted by `str(day)` (line 64), a stable no-op re-sort since the
group keys are distinct and already sorted. -/
def count_periods_for_rows (rows : List Row) (expected : List String) :
    Nat × List (String × Nat) :=
  if rows.isEmpty then (0, [])
  else
    let groupDays := insSortBy pyStrLe (dedupFirst (rows.map Row.day))
    let per_day := groupDays.map (fun d => (d, dayCount rows expected d))
    let total := (per_day.map Prod.snd).sum
    let per_day_sorted := insSortBy (fun a b => pyStrLe a.1 b.1) per_day
    (total, per_day_sorted)

/-! ### Schema detection (`ViewSchedule.py` lines 31-48) -/

/-- `df.columns.str.strip().str.lower()` (line 37): the loader normalizes
every column name. -/
def normalizeCols (cols : List String) : List String :=
  cols.map (fun c => lowerStr (trimStr c))

/-- `re.fullmatch(r'p\d+', c)`: a `p` followed by one or more digits and
nothing else. -/
def fullmatchPNum (s : String) : Bool :=
  match s.data with
  | 'p' :: rest => !rest.isEmpty && rest.all Char.isDigit
  | _ => false

/-- `re.match(r'p[_\-\s]?\d+', c)`: a prefix consisting of `p`, an optional
separator (`_`, `-`, or whitespace) and at least one digit; anything may
follow. -/
def loosematchPNum (s : String) : Bool :=
  match s.data with
  | 'p' :: c :: rest =>
    if c == '_' || c == '-' || c.isWhitespace then
      match rest with
      | d :: _ => d.isDigit
      | [] => false
    else c.isDigit
  | _ => false

/-- Digit characters of the first maximal digit run of `s`
(`re.findall(r'\d+', x)[0]`, line 47). -/
def firstDigitChars : List Char → List Char
  | [] => []
  | c :: rest => if c.isDigit then c :: rest.takeWhile Char.isDigit else firstDigitChars rest

/-- Digit list to number, most significant first. -/
def digitsToNat (ds : List Char) : Nat :=
  ds.foldl (fun n c => 10 * n + (c.toNat - 48)) 0

/-- `int(re.findall(r'\d+', x)[0])` as the numeric sort key of line 47
(every sorted column name contains a digit, so the default is never used). -/
def firstNumOf (s : String) : Nat := digitsToNat (firstDigitChars s.data)

/-- Decimal digits of `n` in reverse order, with structural fuel
(`fuel > n` makes the fuel branch unreachable). -/
def natRevDigits : Nat → Nat → List Char
  | 0, _ => []
  | fuel + 1, n =>
    if n < 10 then [Char.ofNat (48 + n)]
    else Char.ofNat (48 + n % 10) :: natRevDigits fuel (n / 10)

/-- Decimal rendering of a `Nat`, used for the `f"p{i}"` fallback names. -/
def natToStr (n : Nat) : String := ⟨(natRevDigits (n + 1) n).reverse⟩

/-- `detect_period_columns` (lines 40-48): exact `p<digits>` names, else the
looser pattern, else the fallback `p0..p(DEFAULT_PERIOD_COUNT-1)`; the result
is sorted numerically by the first digit run. -/
def detect_period_columns (cols : List String) : List String :=
  let period_cols := cols.filter fullmatchPNum
  let period_cols := if period_cols.isEmpty then cols.filter loosematchPNum else period_cols
  let period_cols :=
    if period_cols.isEmpty then
      (List.range DEFAULT_PERIOD_COUNT).map (fun i => "p" ++ natToStr i)
    else period_cols
  insSortBy (fun a b => Nat.ble (firstNumOf a) (firstNumOf b)) period_cols

/-! ### Session quota state machine and request handling
(`ViewSchedule.py` lines 84-216) -/

/-- The per-session quota state (`st.session_state`, lines 85-88). -/
structure SessionState where
  successful_views : Nat
  locked : Bool
deriving DecidableEq

/-- The initial session state `{successful_views := 0, locked := false}`. -/
def initState : SessionState := ⟨0, false⟩

/-- The staged advisory emitted after a successful display
(lines 173-179 / 210-216), keyed by `views_left_after`. -/
inductive Advisory
  | approachingLimit
  | finalAttempt
  | exhaustedLocked
  | noAdvisory
deriving DecidableEq

/-- Advisory selection of lines 210-216: `views_left_after == 2` warns,
`== 1` is the last-attempt message, `== 0` is the exhausted notice and locks,
anything larger emits nothing. -/
def advisoryFor (views_left_after : Nat) : Advisory :=
  if views_left_after == 2 then Advisory.approachingLimit
  else if views_left_after == 1 then Advisory.finalAttempt
  else if views_left_after == 0 then Advisory.exhaustedLocked
  else Advisory.noAdvisory

/-- The user-facing outcome of one submission. -/
inductive Outcome
  | quotaExhausted
  | emptyQuery
  | notFound (attemptsLeft : Nat)
  | ambiguous (candidates : List String)
  | selectedNotFound
  | success (teacher : String) (total : Nat) (perDay : List (String × Nat))
      (advisory : Advisory)
  | regexError
deriving DecidableEq

/-- `mask_exact` of line 126, per name: lowercased equality with the
(already stripped) query. -/
def mask_exact (query tname : String) : Bool := lowerStr tname == lowerStr query

/-- `mask_contains` of line 127, per name: `re.search` of the compiled
lowercased query in the lowercased name. -/
def mask_contains (pat : List PItem) (tname : String) : Bool :=
  pySearch pat (lowerStr tname).data

/-- Union of the two masks (line 128), row-wise. -/
def rowMatches (pat : List PItem) (query tname : String) : Bool :=
  mask_exact query tname || mask_contains pat tname

/-- `tt.loc[mask_exact | mask_contains, 'tname'].dropna().unique().tolist()`
(line 128): matched teacher names, first occurrence kept. -/
def matchedNames (tt : List Row) (pat : List PItem) (query : String) : List String :=
  dedupFirst ((tt.filter (fun r => rowMatches pat query r.tname)).map Row.tname)

/-- The display block shared by the single-match branch (lines 182-216) and
the confirmed-selection branch (lines 146-179); the two are identical in the
source.  Displays the selected teacher (or reports `selectedNotFound` when no
row carries that name), increments `successful_views`, locks the session when
the quota is then spent, and emits the staged advisory. -/
def displayTeacher (tt : List Row) (expected : List String) (st : SessionState)
    (sel : String) : Outcome × SessionState :=
  if (tt.filter (fun r => lowerStr r.tname == lowerStr sel)).isEmpty then
    (Outcome.selectedNotFound, st)
  else
    (Outcome.success sel
      (count_periods_for_rows (tt.filter (fun r => lowerStr r.tname == lowerStr sel)) expected).1
      (count_periods_for_rows (tt.filter (fun r => lowerStr r.tname == lowerStr sel)) expected).2
      (advisoryFor (MAX_ATTEMPTS - (st.successful_views + 1))),
     ⟨st.successful_views + 1,
      if MAX_ATTEMPTS - (st.successful_views + 1) == 0 then true else st.locked⟩)

/-- One submission of the form (lines 91-93 and 115-216).  The `confirm`
argument stands for the confirm-selection widget of the multiple-match branch
(lines 143-145): `some sel` when the user has picked `sel` and pressed the
confirm button, `none` otherwise.  A locked session is stopped at line 91-93
before the form is even drawn; the remaining branches follow the submission
handler line by line. -/
def handleRequest (tt : List Row) (expected : List String) (st : SessionState)
    (name_input : String) (confirm : Option String) : Outcome × SessionState :=
  if st.locked then (Outcome.quotaExhausted, st)
  else if MAX_ATTEMPTS ≤ st.successful_views then
    (Outcome.quotaExhausted, ⟨st.successful_views, true⟩)
  else if trimStr name_input == "" then (Outcome.emptyQuery, st)
  else
    match pyParse (lowerStr (trimStr name_input)).data with
    | none => (Outcome.regexError, st)
    | some pat =>
      match matchedNames tt pat (trimStr name_input) with
      | [] =>
        (Outcome.notFound (MAX_ATTEMPTS - st.successful_views),
          if MAX_ATTEMPTS - st.successful_views == 0 then
            ⟨st.successful_views, true⟩
          else st)
      | [t] => displayTeacher tt expected st t
      | ts =>
        match confirm with
        | none => (Outcome.ambiguous (insSortBy pyStrLe ts), st)
        | some sel => displayTeacher tt expected st sel

/-- Did the outcome display a timetable (the only event that increments
`successful_views`)? -/
def isSuccess : Outcome → Bool
  | Outcome.success _ _ _ _ => true
  | _ => false

/-- A whole session: fold `handleRequest` over a list of submissions, each a
query string together with the optional confirmed selection. -/
def runSession (tt : List Row) (expected : List String) :
    SessionState → List (String × Option String) → List Outcome × SessionState
  | st, [] => ([], st)
  | st, (q, c) :: rest =>
    let step := handleRequest tt expected st q c
    let restRun := runSession tt expected step.2 rest
    (step.1 :: restRun.1, restRun.2)

/-- Number of successful displays among a list of outcomes. -/
def countSuccess (os : List Outcome) : Nat := (os.filter isSuccess).length

/-! ### Definitions taken from the specification text

The following definitions do not embed code from `src/ViewSchedule.py`; they
transcribe the specification's wording and are used only to compare the
source behaviour against the specified one. -/

/-- Modelled from the spec: the zeroth-period rule of the Period-Cell
Classifier, "true only if the cell text contains the substring skill
(case-insensitive)". -/
def specContainsSkill (s : String) : Bool :=
  listContains (lowerStr s).data "skill".data

/-- Modelled from the spec: an explicit zero-period marker, "the cell text
(case-insensitive) equals or contains one of the variants `zero pd`, `0 pd`,
`zero`" (containment subsumes equality). -/
def specZeroMarker (s : String) : Bool :=
  let l := (lowerStr s).data
  listContains l "zero pd".data || listContains l "0 pd".data ||
    listContains l "zero".data

/-- Modelled from the spec: the full weekday names with their canonical
indices, monday..saturday (sunday recognized but placed after the primary
six, per the spec). -/
def specWeekNames : List (String × Nat) :=
  [("monday", 0), ("tuesday", 1), ("wednesday", 2), ("thursday", 3),
   ("friday", 4), ("saturday", 5), ("sunday", 6)]

/-- Modelled from the spec: the synonym table of the Day Normalizer
(§4.3 step 2). -/
def specDaySynonyms : List (String × Nat) :=
  [("mon", 0), ("monday", 0), ("tue", 1), ("tues", 1), ("tuesday", 1),
   ("wed", 2), ("wednesday", 2), ("thu", 3), ("thur", 3), ("thurs", 3),
   ("thursday", 3), ("fri", 4), ("friday", 4), ("sat", 5), ("saturday", 5),
   ("sun", 6), ("sunday", 6)]

/-- Modelled from the spec: first weekday whose full name occurs in `l`
(§4.3 step 4). -/
def specDaySubstr (l : List Char) : List (String × Nat) → Nat
  | [] => 7
  | (nm, i) :: rest => if listContains l nm.data then i else specDaySubstr l rest

/-- Modelled from the spec: the canonical-day index of a raw day label via
the Day Normalizer (§4.3): trim and lowercase, look the text up in the
synonym table, else search for a weekday name as a substring, else Unknown
(index 7, after all known days).  The date-parse fallback of §4.3 step 3 is
omitted: no label considered in this development reaches it, because each is
resolved by the earlier synonym step or fails every step. -/
def specCanonicalDayIndex (raw : String) : Nat :=
  let l := lowerStr (trimStr raw)
  match specDaySynonyms.lookup l with
  | some i => i
  | none => specDaySubstr l.data specWeekNames

/-! ### Concrete tables used by witnesses and counterexamples -/

/-- A one-teacher table: `A. Rao` teaches `Math` in `p1` on `Mon`. -/
def ttRao : List Row := [⟨"A. Rao", "Mon", [("p1", some "Math")]⟩]

/-- Two teachers whose names both contain `rao`. -/
def ttRao2 : List Row :=
  [⟨"A. Rao", "Mon", [("p1", some "Math")]⟩,
   ⟨"B. Rao", "Tue", [("p1", some "Sci")]⟩]

/-- A table whose single teacher name contains `a+b` as plain text. -/
def ttPlusSub : List Row := [⟨"xa+by", "Mon", [("p1", some "X")]⟩]

/-- A table whose single teacher name is exactly `a+b`. -/
def ttPlusExact : List Row := [⟨"a+b", "Mon", [("p1", some "X")]⟩]

/-- Rows whose day labels sort differently as strings (`Fri` before `Mon`)
than by canonical weekday (Monday before Friday). -/
def rowsFriMon : List Row :=
  [⟨"T", "Fri", [("p1", some "X")]⟩, ⟨"T", "Mon", [("p1", some "Y")]⟩]

/-- All ways of inserting `x` into a list. -/
def insertEverywhere (x : α) : List α → List (List α)
  | [] => [[x]]
  | y :: ys => (x :: y :: ys) :: (insertEverywhere x ys).map (fun l => y :: l)

/-- All permutations of a list, as a kernel-computable enumeration. -/
def allPerms : List α → List (List α)
  | [] => [[]]
  | x :: xs => ((allPerms xs).map (insertEverywhere x)).flatten

/-! ### Helper lemmas: the string comparator is a total preorder -/

theorem cmpChars_swap : ∀ (as bs : List Char), cmpChars bs as = (cmpChars as bs).swap := by
  intro as
  induction as with
  | nil => intro bs; cases bs <;> rfl
  | cons a as ih =>
    intro bs
    cases bs with
    | nil => rfl
    | cons b bs =>
      simp only [cmpChars]
      by_cases h1 : a.toNat < b.toNat
      · have h2 : ¬ b.toNat < a.toNat := by omega
        simp [h1, h2, Ordering.swap]
      · by_cases h2 : b.toNat < a.toNat
        · simp [h1, h2, Ordering.swap]
        · simp [h1, h2, ih bs]

theorem cmpChars_le_trans : ∀ (as bs cs : List Char),
    cmpChars as bs ≠ .gt → cmpChars bs cs ≠ .gt → cmpChars as cs ≠ .gt := by
  intro as
  induction as with
  | nil =>
    intro bs cs _ _
    cases cs <;> simp [cmpChars]
  | cons a as ih =>
    intro bs cs h1 h2
    cases bs with
    | nil => simp [cmpChars] at h1
    | cons b bs =>
      cases cs with
      | nil => simp [cmpChars] at h2
      | cons c cs =>
        simp only [cmpChars] at h1 h2 ⊢
        by_cases hba : b.toNat < a.toNat
        · have hab : ¬ a.toNat < b.toNat := by omega
          simp [hab, hba] at h1
        · by_cases hcb : c.toNat < b.toNat
          · have hbc : ¬ b.toNat < c.toNat := by omega
            simp [hbc, hcb] at h2
          · by_cases hab : a.toNat < b.toNat
            · by_cases hac : a.toNat < c.toNat
              · simp [hac]
              · omega
            · by_cases hbc : b.toNat < c.toNat
              · have hac : a.toNat < c.toNat := by omega
                simp [hac]
              · have hac : ¬ a.toNat < c.toNat := by omega
                have hca : ¬ c.toNat < a.toNat := by omega
                simp only [hac, if_false, hca, if_true, if_neg]
                simp only [hab, hba, if_neg, ite_false] at h1
                simp only [hbc, hcb, if_neg, ite_false] at h2
                exact ih bs cs h1 h2

theorem pyStrLe_iff (a b : String) : pyStrLe a b = true ↔ cmpChars a.data b.data ≠ .gt := by
  rw [pyStrLe]
  cases h : cmpChars a.data b.data <;> simp <;> decide

theorem pyStrLe_total (a b : String) : pyStrLe a b = true ∨ pyStrLe b a = true := by
  by_cases h : cmpChars a.data b.data = .gt
  · right
    rw [pyStrLe_iff]
    have hswap := cmpChars_swap a.data b.data
    rw [h] at hswap
    rw [hswap]
    decide
  · left
    exact (pyStrLe_iff a b).mpr h

theorem pyStrLe_trans (a b c : String) (h1 : pyStrLe a b = true) (h2 : pyStrLe b c = true) :
    pyStrLe a c = true := by
  rw [pyStrLe_iff] at h1 h2 ⊢
  exact cmpChars_le_trans a.data b.data c.data h1 h2

/-! ### Helper lemmas: insertion sort -/

theorem mem_insertBy (le : α → α → Bool) (x : α) :
    ∀ (l : List α) (y : α), y ∈ insertBy le x l ↔ y = x ∨ y ∈ l := by
  intro l
  induction l with
  | nil => intro y; simp [insertBy]
  | cons z zs ih =>
    intro y
    simp only [insertBy]
    by_cases h : le x z = true
    · rw [if_pos h]
      simp only [List.mem_cons]
    · rw [if_neg h]
      simp only [List.mem_cons, ih y]
      tauto

theorem pairwise_insertBy (le : α → α → Bool)
    (htot : ∀ u v : α, le u v = true ∨ le v u = true)
    (htrans : ∀ u v w : α, le u v = true → le v w = true → le u w = true)
    (x : α) :
    ∀ (l : List α), l.Pairwise (fun u v => le u v = true) →
      (insertBy le x l).Pairwise (fun u v => le u v = true) := by
  intro l
  induction l with
  | nil => intro _; simp [insertBy]
  | cons z zs ih =>
    intro hp
    rcases List.pairwise_cons.mp hp with ⟨hz, hzs⟩
    simp only [insertBy]
    by_cases h : le x z = true
    · rw [if_pos h]
      refine List.pairwise_cons.mpr ⟨?_, hp⟩
      intro y hy
      rcases List.mem_cons.mp hy with rfl | hy
      · exact h
      · exact htrans x z y h (hz y hy)
    · rw [if_neg h]
      refine List.pairwise_cons.mpr ⟨?_, ih hzs⟩
      intro y hy
      rcases (mem_insertBy le x zs y).mp hy with rfl | hy
      · rcases htot z y with hzy | hyz
        · exact hzy
        · exact absurd hyz h
      · exact hz y hy

theorem pairwise_insSortBy (le : α → α → Bool)
    (htot : ∀ u v : α, le u v = true ∨ le v u = true)
    (htrans : ∀ u v w : α, le u v = true → le v w = true → le u w = true) :
    ∀ (l : List α), (insSortBy le l).Pairwise (fun u v => le u v = true) := by
  intro l
  induction l with
  | nil => simp [insSortBy]
  | cons x xs ih => exact pairwise_insertBy le htot htrans x (insSortBy le xs) ih

theorem mem_insSortBy (le : α → α → Bool) :
    ∀ (l : List α) (y : α), y ∈ insSortBy le l ↔ y ∈ l := by
  intro l
  induction l with
  | nil => intro y; simp [insSortBy]
  | cons x xs ih =>
    intro y
    simp only [insSortBy, mem_insertBy, ih y, List.mem_cons]

theorem nodup_insertBy (le : α → α → Bool) (x : α) :
    ∀ (l : List α), x ∉ l → l.Nodup → (insertBy le x l).Nodup := by
  intro l
  induction l with
  | nil => intro _ _; simp [insertBy]
  | cons z zs ih =>
    intro hx hnd
    rcases List.nodup_cons.mp hnd with ⟨hz, hzs⟩
    simp only [insertBy]
    by_cases h : le x z = true
    · rw [if_pos h]
      exact List.nodup_cons.mpr ⟨hx, hnd⟩
    · rw [if_neg h]
      refine List.nodup_cons.mpr ⟨?_, ih (fun hm => hx (List.mem_cons_of_mem z hm)) hzs⟩
      intro hmem
      rcases (mem_insertBy le x zs z).mp hmem with hzx | hzmem
      · exact hx (hzx ▸ List.mem_cons_self z zs)
      · exact hz hzmem

theorem nodup_insSortBy (le : α → α → Bool) :
    ∀ (l : List α), l.Nodup → (insSortBy le l).Nodup := by
  intro l
  induction l with
  | nil => intro _; simp [insSortBy]
  | cons x xs ih =>
    intro hnd
    rcases List.nodup_cons.mp hnd with ⟨hx, hxs⟩
    exact nodup_insertBy le x (insSortBy le xs)
      (fun hm => hx ((mem_insSortBy le xs x).mp hm)) (ih hxs)

theorem mem_dedupGo :
    ∀ (l seen : List String) (x : String), x ∈ dedupGo seen l ↔ x ∈ l ∧ x ∉ seen := by
  intro l
  induction l with
  | nil => intro seen x; simp [dedupGo]
  | cons y ys ih =>
    intro seen x
    simp only [dedupGo]
    by_cases hc : seen.contains y = true
    · rw [if_pos hc]
      have hy : y ∈ seen := List.elem_iff.mp hc
      rw [ih seen x]
      simp only [List.mem_cons]
      constructor
      · rintro ⟨hxy, hxs⟩; exact ⟨Or.inr hxy, hxs⟩
      · rintro ⟨hxy | hxy, hxs⟩
        · exact absurd (hxy ▸ hy) hxs
        · exact ⟨hxy, hxs⟩
    · rw [if_neg hc]
      have hy : y ∉ seen := fun hm => hc (List.elem_iff.mpr hm)
      simp only [List.mem_cons, ih (y :: seen) x]
      by_cases hxy : x = y
      · subst hxy
        simp [hy]
      · simp [hxy]

theorem nodup_dedupGo : ∀ (l seen : List String), (dedupGo seen l).Nodup := by
  intro l
  induction l with
  | nil => intro seen; simp [dedupGo]
  | cons y ys ih =>
    intro seen
    simp only [dedupGo]
    by_cases hc : seen.contains y = true
    · rw [if_pos hc]
      exact ih seen
    · rw [if_neg hc]
      refine List.nodup_cons.mpr ⟨?_, ih (y :: seen)⟩
      intro hmem
      exact ((mem_dedupGo ys (y :: seen) y).mp hmem).2 (List.mem_cons_self y seen)

theorem mem_dedupFirst (l : List String) (x : String) : x ∈ dedupFirst l ↔ x ∈ l := by
  rw [dedupFirst, mem_dedupGo]
  simp

theorem nodup_dedupFirst (l : List String) : (dedupFirst l).Nodup := nodup_dedupGo l []

/-! ### Helper lemmas: exchanging the per-day grouped sum for a row sum -/

theorem sum_map_zeroF : ∀ (l : List α), (l.map (fun _ => (0 : Nat))).sum = 0 := by
  intro l
  induction l with
  | nil => rfl
  | cons x xs ih => simp [ih]

theorem sum_map_addF (f g : α → Nat) :
    ∀ (l : List α), (l.map (fun x => f x + g x)).sum = (l.map f).sum + (l.map g).sum := by
  intro l
  induction l with
  | nil => simp
  | cons x xs ih => simp [ih]; omega

theorem sum_map_ite_not_mem (d : String) (c : Nat) :
    ∀ (ds : List String), d ∉ ds →
      (ds.map (fun x => if d == x then c else 0)).sum = 0 := by
  intro ds
  induction ds with
  | nil => intro _; simp
  | cons y ys ih =>
    intro hd
    have hdy : ¬ (d == y) = true := by
      simp only [beq_iff_eq]
      intro h
      exact hd (h ▸ List.mem_cons_self y ys)
    simp only [List.map_cons, List.sum_cons, if_neg hdy, Nat.zero_add]
    exact ih (fun hm => hd (List.mem_cons_of_mem y hm))

theorem sum_map_ite_mem (d : String) (c : Nat) :
    ∀ (ds : List String), ds.Nodup → d ∈ ds →
      (ds.map (fun x => if d == x then c else 0)).sum = c := by
  intro ds
  induction ds with
  | nil => intro _ h; cases h
  | cons y ys ih =>
    intro hnd hd
    rcases List.nodup_cons.mp hnd with ⟨hy, hys⟩
    rcases List.mem_cons.mp hd with rfl | hd
    · have : (d == d) = true := by simp
      simp only [List.map_cons, List.sum_cons, if_pos this]
      rw [sum_map_ite_not_mem d c ys hy]
      omega
    · have hdy : ¬ (d == y) = true := by
        simp only [beq_iff_eq]
        intro h
        exact hy (h ▸ hd)
      simp only [List.map_cons, List.sum_cons, if_neg hdy, Nat.zero_add]
      exact ih hys hd

theorem dayCount_cons (r : Row) (rs : List Row) (expected : List String) (d : String) :
    dayCount (r :: rs) expected d =
      (if r.day == d then rowPeriods expected r else 0) + dayCount rs expected d := by
  simp only [dayCount, List.filter_cons]
  by_cases h : (r.day == d) = true <;> simp [h]

theorem sum_dayCount_eq (expected : List String) :
    ∀ (rows : List Row) (ds : List String), ds.Nodup → (∀ r ∈ rows, r.day ∈ ds) →
      (ds.map (dayCount rows expected)).sum = (rows.map (rowPeriods expected)).sum := by
  intro rows
  induction rows with
  | nil =>
    intro ds _ _
    have h0 : ds.map (dayCount [] expected) = ds.map (fun _ => 0) := by
      apply List.map_congr_left
      intro d _
      simp [dayCount]
    rw [h0, sum_map_zeroF]
    rfl
  | cons r rs ih =>
    intro ds hnd hcov
    have hstep : (ds.map (dayCount (r :: rs) expected)).sum =
        (ds.map (fun d => (if r.day == d then rowPeriods expected r else 0) +
          dayCount rs expected d)).sum := by
      congr 1
      apply List.map_congr_left
      intro d _
      exact dayCount_cons r rs expected d
    rw [hstep, sum_map_addF, sum_map_ite_mem r.day (rowPeriods expected r) ds hnd
      (hcov r (List.mem_cons_self r rs)),
      ih ds hnd (fun x hx => hcov x (List.mem_cons_of_mem r hx))]
    simp

/-- The `total` returned by `count_periods_for_rows` is the number of counted
cells over all rows and period columns: the day grouping partitions the rows,
so the grouped total equals the plain row sum. -/
theorem count_total_eq (rows : List Row) (expected : List String) :
    (count_periods_for_rows rows expected).1 = (rows.map (rowPeriods expected)).sum := by
  by_cases he : rows.isEmpty = true
  · rw [List.isEmpty_iff.mp he]
    simp [count_periods_for_rows]
  · simp only [count_periods_for_rows, he, if_neg, ite_false, Bool.false_eq_true]
    rw [List.map_map]
    have hcomp : (Prod.snd ∘ fun d => (d, dayCount rows expected d)) =
        dayCount rows expected := rfl
    rw [hcomp]
    apply sum_dayCount_eq
    · exact nodup_insSortBy pyStrLe _ (nodup_dedupFirst _)
    · intro r hr
      rw [mem_insSortBy, mem_dedupFirst]
      exact List.mem_map_of_mem Row.day hr

/-! ### Helper lemmas: completeness of the permutation enumeration -/

theorem mem_insertEverywhere_append (x : α) :
    ∀ (l1 l2 : List α), (l1 ++ x :: l2) ∈ insertEverywhere x (l1 ++ l2) := by
  intro l1
  induction l1 with
  | nil =>
    intro l2
    cases l2 <;> simp [insertEverywhere]
  | cons y ys ih =>
    intro l2
    simp only [List.cons_append, insertEverywhere]
    exact List.mem_cons_of_mem _ (List.mem_map_of_mem _ (ih l2))

theorem mem_allPerms_of_perm :
    ∀ {base l : List α}, l.Perm base → l ∈ allPerms base := by
  intro base
  induction base with
  | nil =>
    intro l h
    rw [List.perm_nil.mp h]
    simp [allPerms]
  | cons x bs ih =>
    intro l h
    have hx : x ∈ l := h.mem_iff.mpr (List.mem_cons_self x bs)
    obtain ⟨l1, l2, rfl⟩ := List.append_of_mem hx
    have hmid : (l1 ++ x :: l2).Perm (x :: (l1 ++ l2)) := List.perm_middle
    have h2 : (l1 ++ l2).Perm bs := (hmid.symm.trans h).cons_inv
    simp only [allPerms, List.mem_flatten]
    exact ⟨insertEverywhere x (l1 ++ l2), List.mem_map_of_mem _ (ih h2),
      mem_insertEverywhere_append x l1 l2⟩

/-! ### Helper lemmas: branch analysis of `handleRequest` -/

theorem handleRequest_locked (tt : List Row) (expected : List String) (st : SessionState)
    (q : String) (c : Option String) (h : st.locked = true) :
    handleRequest tt expected st q c = (Outcome.quotaExhausted, st) := by
  rw [handleRequest, if_pos h]

theorem displayTeacher_spec (tt : List Row) (expected : List String) (st : SessionState)
    (sel : String) :
    displayTeacher tt expected st sel = (Outcome.selectedNotFound, st) ∨
    ∃ total perDay,
      displayTeacher tt expected st sel =
        (Outcome.success sel total perDay
          (advisoryFor (MAX_ATTEMPTS - (st.successful_views + 1))),
         ⟨st.successful_views + 1,
          if MAX_ATTEMPTS - (st.successful_views + 1) == 0 then true else st.locked⟩) := by
  rw [displayTeacher]
  by_cases h : (tt.filter (fun r => lowerStr r.tname == lowerStr sel)).isEmpty = true
  · left
    rw [if_pos h]
  · right
    rw [if_neg h]
    exact ⟨_, _, rfl⟩

theorem handleRequest_cases (tt : List Row) (expected : List String) (st : SessionState)
    (q : String) (c : Option String) :
    (st.locked = true ∧ handleRequest tt expected st q c = (Outcome.quotaExhausted, st)) ∨
    (st.locked = false ∧ MAX_ATTEMPTS ≤ st.successful_views ∧
      handleRequest tt expected st q c =
        (Outcome.quotaExhausted, ⟨st.successful_views, true⟩)) ∨
    (st.locked = false ∧ st.successful_views < MAX_ATTEMPTS ∧
      (handleRequest tt expected st q c = (Outcome.emptyQuery, st) ∨
       handleRequest tt expected st q c = (Outcome.regexError, st) ∨
       handleRequest tt expected st q c =
         (Outcome.notFound (MAX_ATTEMPTS - st.successful_views),
           if MAX_ATTEMPTS - st.successful_views == 0 then
             ⟨st.successful_views, true⟩
           else st) ∨
       (∃ cand, handleRequest tt expected st q c = (Outcome.ambiguous cand, st)) ∨
       (∃ sel, handleRequest tt expected st q c = displayTeacher tt expected st sel))) := by
  by_cases hl : st.locked = true
  · exact Or.inl ⟨hl, handleRequest_locked tt expected st q c hl⟩
  · have hl' : st.locked = false := by
      cases hlv : st.locked
      · rfl
      · exact absurd hlv hl
    rw [handleRequest, if_neg hl]
    by_cases hv : MAX_ATTEMPTS ≤ st.successful_views
    · exact Or.inr (Or.inl ⟨hl', hv, by rw [if_pos hv]⟩)
    · rw [if_neg hv]
      refine Or.inr (Or.inr ⟨hl', by omega, ?_⟩)
      by_cases hq : (trimStr q == "") = true
      · rw [if_pos hq]
        exact Or.inl rfl
      · rw [if_neg hq]
        cases hp : pyParse (lowerStr (trimStr q)).data with
        | none =>
          dsimp only
          exact Or.inr (Or.inl rfl)
        | some pat =>
          dsimp only
          cases hm : matchedNames tt pat (trimStr q) with
          | nil =>
            dsimp only
            exact Or.inr (Or.inr (Or.inl rfl))
          | cons t ts =>
            cases ts with
            | nil =>
              dsimp only
              exact Or.inr (Or.inr (Or.inr (Or.inr ⟨t, rfl⟩)))
            | cons t2 ts2 =>
              cases c with
              | none =>
                dsimp only
                exact Or.inr (Or.inr (Or.inr (Or.inl ⟨_, rfl⟩)))
              | some sel =>
                dsimp only
                exact Or.inr (Or.inr (Or.inr (Or.inr ⟨sel, rfl⟩)))

theorem handleRequest_step (tt : List Row) (expected : List String) (st : SessionState)
    (q : String) (c : Option String) :
    (isSuccess (handleRequest tt expected st q c).1 = false ∧
     (handleRequest tt expected st q c).2.successful_views = st.successful_views ∧
     ((handleRequest tt expected st q c).2.locked = st.locked ∨
      MAX_ATTEMPTS ≤ st.successful_views ∧
        (handleRequest tt expected st q c).2.locked = true)) ∨
    (isSuccess (handleRequest tt expected st q c).1 = true ∧
     st.locked = false ∧ st.successful_views < MAX_ATTEMPTS ∧
     (handleRequest tt expected st q c).2.successful_views = st.successful_views + 1 ∧
     (handleRequest tt expected st q c).2.locked =
       (if MAX_ATTEMPTS - (st.successful_views + 1) == 0 then true else st.locked)) := by
  rcases handleRequest_cases tt expected st q c with ⟨hl, heq⟩ | ⟨hl, hv, heq⟩ | ⟨hl, hv, hcase⟩
  · left
    rw [heq]
    exact ⟨rfl, rfl, Or.inl rfl⟩
  · left
    rw [heq]
    exact ⟨rfl, rfl, Or.inr ⟨hv, rfl⟩⟩
  · rcases hcase with heq | heq | heq | ⟨cand, heq⟩ | ⟨sel, heq⟩
    · left
      rw [heq]
      exact ⟨rfl, rfl, Or.inl rfl⟩
    · left
      rw [heq]
      exact ⟨rfl, rfl, Or.inl rfl⟩
    · left
      rw [heq]
      have h0 : ¬ ((MAX_ATTEMPTS - st.successful_views == 0) = true) := by
        simp only [beq_iff_eq]
        omega
      rw [if_neg h0]
      exact ⟨rfl, rfl, Or.inl rfl⟩
    · left
      rw [heq]
      exact ⟨rfl, rfl, Or.inl rfl⟩
    · rcases displayTeacher_spec tt expected st sel with hd | ⟨total, perDay, hd⟩
      · left
        rw [heq, hd]
        exact ⟨rfl, rfl, Or.inl rfl⟩
      · right
        rw [heq, hd]
        exact ⟨rfl, hl, hv, rfl, rfl⟩

/-- The reachable-state invariant of the quota machine: the view counter
never exceeds the quota, and the session is locked exactly when the counter
has reached it. -/
def SessionInv (st : SessionState) : Prop :=
  st.successful_views ≤ MAX_ATTEMPTS ∧
    st.locked = decide (st.successful_views = MAX_ATTEMPTS)

theorem handleRequest_inv (tt : List Row) (expected : List String) (st : SessionState)
    (q : String) (c : Option String) (h : SessionInv st) :
    SessionInv (handleRequest tt expected st q c).2 ∧
    (handleRequest tt expected st q c).2.successful_views =
      st.successful_views +
        (if isSuccess (handleRequest tt expected st q c).1 then 1 else 0) := by
  rcases handleRequest_step tt expected st q c with
    ⟨hs, hv, hlk⟩ | ⟨hs, hl, hv, hsv, hlk⟩
  · refine ⟨⟨by rw [hv]; exact h.1, ?_⟩, by rw [hs, hv]; simp⟩
    rcases hlk with hlk | ⟨hge, hlk⟩
    · rw [hlk, hv]
      exact h.2
    · have hve : st.successful_views = MAX_ATTEMPTS := Nat.le_antisymm h.1 hge
      rw [hlk, hv, hve]
      simp
  · refine ⟨⟨by rw [hsv]; omega, ?_⟩, by rw [hsv, hs]; simp⟩
    rw [hlk, hsv]
    by_cases hfull : st.successful_views + 1 = MAX_ATTEMPTS
    · have h0 : (MAX_ATTEMPTS - (st.successful_views + 1) == 0) = true := by
        simp only [beq_iff_eq]
        omega
      rw [if_pos h0]
      simp [hfull]
    · have h0 : ¬ ((MAX_ATTEMPTS - (st.successful_views + 1) == 0) = true) := by
        simp only [beq_iff_eq]
        omega
      rw [if_neg h0, hl]
      simp [hfull]

theorem countSuccess_cons (o : Outcome) (os : List Outcome) :
    countSuccess (o :: os) = (if isSuccess o then 1 else 0) + countSuccess os := by
  simp only [countSuccess, List.filter_cons]
  by_cases h : isSuccess o = true <;> (simp [h]; try omega)

theorem runSession_inv (tt : List Row) (expected : List String) :
    ∀ (L : List (String × Option String)) (st : SessionState), SessionInv st →
      SessionInv (runSession tt expected st L).2 ∧
      (runSession tt expected st L).2.successful_views =
        st.successful_views + countSuccess (runSession tt expected st L).1 := by
  intro L
  induction L with
  | nil =>
    intro st h
    exact ⟨h, by simp [runSession, countSuccess]⟩
  | cons p rest ih =>
    intro st h
    obtain ⟨q, c⟩ := p
    obtain ⟨h1, h2⟩ := handleRequest_inv tt expected st q c h
    obtain ⟨h3, h4⟩ := ih (handleRequest tt expected st q c).2 h1
    simp only [runSession]
    refine ⟨h3, ?_⟩
    rw [countSuccess_cons, h4, h2]
    omega

theorem runSession_locked (tt : List Row) (expected : List String) :
    ∀ (L : List (String × Option String)) (st : SessionState), st.locked = true →
      runSession tt expected st L = (L.map (fun _ => Outcome.quotaExhausted), st) := by
  intro L
  induction L with
  | nil => intro st _; rfl
  | cons p rest ih =>
    intro st h
    obtain ⟨q, c⟩ := p
    simp only [runSession, handleRequest_locked tt expected st q c h, ih st h, List.map_cons]

theorem countSuccess_const_qe :
    ∀ (L : List (String × Option String)),
      countSuccess (L.map (fun _ => Outcome.quotaExhausted)) = 0 := by
  intro L
  induction L with
  | nil => rfl
  | cons p rest ih =>
    rw [List.map_cons, countSuccess_cons, ih]
    rfl

/-- Any successful outcome of `handleRequest` carries exactly the advisory
determined by the remaining views after the display. -/
theorem handleRequest_success_adv (tt : List Row) (expected : List String)
    (st : SessionState) (q : String) (c : Option String) (t : String) (total : Nat)
    (perDay : List (String × Nat)) (adv : Advisory) (st2 : SessionState)
    (hreq : handleRequest tt expected st q c = (Outcome.success t total perDay adv, st2)) :
    adv = advisoryFor (MAX_ATTEMPTS - (st.successful_views + 1)) := by
  rcases handleRequest_cases tt expected st q c with ⟨_, heq⟩ | ⟨_, _, heq⟩ | ⟨_, _, hcase⟩
  · rw [heq] at hreq
    simp at hreq
  · rw [heq] at hreq
    simp at hreq
  · rcases hcase with heq | heq | heq | ⟨cand, heq⟩ | ⟨sel, heq⟩
    · rw [heq] at hreq
      simp at hreq
    · rw [heq] at hreq
      simp at hreq
    · rw [heq] at hreq
      simp at hreq
    · rw [heq] at hreq
      simp at hreq
    · rcases displayTeacher_spec tt expected st sel with hd | ⟨total2, perDay2, hd⟩
      · rw [heq, hd] at hreq
        simp at hreq
      · rw [heq, hd] at hreq
        simp only [Prod.mk.injEq, Outcome.success.injEq] at hreq
        exact hreq.1.2.2.2.symm

/-! ### The claims -/

/-- Claim C1: for every session, after exactly cap (= 5) confirmed successful
timetable displays, the next view request is rejected with QuotaExhausted
(and the state is unchanged and Locked); no further successful display can
occur. -/
theorem claim_C1_quota_lock (tt : List Row) (expected : List String)
    (inputs : List (String × Option String))
    (h : countSuccess (runSession tt expected initState inputs).1 = MAX_ATTEMPTS) :
    (runSession tt expected initState inputs).2.locked = true ∧
    (runSession tt expected initState inputs).2.successful_views = MAX_ATTEMPTS ∧
    (∀ q c, handleRequest tt expected (runSession tt expected initState inputs).2 q c =
      (Outcome.quotaExhausted, (runSession tt expected initState inputs).2)) ∧
    (∀ more, countSuccess
      (runSession tt expected (runSession tt expected initState inputs).2 more).1 = 0) := by
  have h0 : SessionInv initState := ⟨by decide, by decide⟩
  obtain ⟨hfin, hcount⟩ := runSession_inv tt expected inputs initState h0
  have hviews : (runSession tt expected initState inputs).2.successful_views = MAX_ATTEMPTS := by
    rw [hcount, h]
    rfl
  have hlock : (runSession tt expected initState inputs).2.locked = true := by
    rw [hfin.2, hviews]
    simp
  refine ⟨hlock, hviews, ?_, ?_⟩
  · intro q c
    exact handleRequest_locked _ _ _ q c hlock
  · intro more
    rw [runSession_locked tt expected more _ hlock]
    exact countSuccess_const_qe more

/-- Witness for C1: five successful lookups of `rao` against the one-teacher
table exhaust the quota and lock the session. -/
theorem claim_C1_quota_lock_witness :
    countSuccess (runSession ttRao ["p1"] initState
      [("rao", none), ("rao", none), ("rao", none), ("rao", none), ("rao", none)]).1 =
      MAX_ATTEMPTS ∧
    (runSession ttRao ["p1"] initState
      [("rao", none), ("rao", none), ("rao", none), ("rao", none), ("rao", none)]).2.locked =
      true := by
  refine ⟨by decide, ?_⟩
  exact (claim_C1_quota_lock ttRao ["p1"]
    [("rao", none), ("rao", none), ("rao", none), ("rao", none), ("rao", none)] (by decide)).1

/-- Claim C2: the invariant 0 ≤ successful_views ≤ cap is preserved by every
request (the lower bound holds because the counter is a natural number), and
a locked session is returned unchanged, so no operation in the user flow
increments the counter once locked is set. -/
theorem claim_C2_invariant (tt : List Row) (expected : List String) (st : SessionState)
    (q : String) (c : Option String) (h : st.successful_views ≤ MAX_ATTEMPTS) :
    (handleRequest tt expected st q c).2.successful_views ≤ MAX_ATTEMPTS ∧
    (st.locked = true →
      (handleRequest tt expected st q c).2 = st ∧
      (handleRequest tt expected st q c).2.successful_views = st.successful_views) := by
  constructor
  · rcases handleRequest_step tt expected st q c with ⟨_, hv, _⟩ | ⟨_, _, hv, hsv, _⟩
    · rw [hv]
      exact h
    · rw [hsv]
      omega
  · intro hl
    rw [handleRequest_locked tt expected st q c hl]
    exact ⟨rfl, rfl⟩

/-- Witness for C2: a locked session with a spent quota is returned
unchanged by a further request. -/
theorem claim_C2_invariant_witness :
    (5 : Nat) ≤ MAX_ATTEMPTS ∧
    (handleRequest ttRao ["p1"] ⟨5, true⟩ "rao" none).2 = (⟨5, true⟩ : SessionState) := by
  refine ⟨by decide, ?_⟩
  exact ((claim_C2_invariant ttRao ["p1"] ⟨5, true⟩ "rao" none (by decide)).2 rfl).1

/-- Claim C3: after a successful display the advisory is staged on the
remaining views: two left warns of the approaching limit, one left is the
final-attempt message, zero left is the exhausted-and-locked notice, and
more than two left emits nothing; in particular a session at cap-2 that
displays once more reaches remaining = 1 and yields the final-attempt
advisory, not the approaching-limit one. -/
theorem claim_C3_advisory_staging :
    (advisoryFor 2 = Advisory.approachingLimit ∧
     advisoryFor 1 = Advisory.finalAttempt ∧
     advisoryFor 0 = Advisory.exhaustedLocked ∧
     ∀ n, 2 < n → advisoryFor n = Advisory.noAdvisory) ∧
    (∀ (tt : List Row) (expected : List String) (st : SessionState) (q : String)
       (c : Option String) (t : String) (total : Nat) (perDay : List (String × Nat))
       (adv : Advisory) (st2 : SessionState),
       handleRequest tt expected st q c = (Outcome.success t total perDay adv, st2) →
       adv = advisoryFor (MAX_ATTEMPTS - (st.successful_views + 1))) ∧
    (∀ (tt : List Row) (expected : List String) (st : SessionState) (q : String)
       (c : Option String) (t : String) (total : Nat) (perDay : List (String × Nat))
       (adv : Advisory) (st2 : SessionState),
       st.successful_views = MAX_ATTEMPTS - 2 →
       handleRequest tt expected st q c = (Outcome.success t total perDay adv, st2) →
       adv = Advisory.finalAttempt ∧ adv ≠ Advisory.approachingLimit) := by
  refine ⟨⟨by decide, by decide, by decide, ?_⟩, handleRequest_success_adv, ?_⟩
  · intro n hn
    have h2 : ¬ ((n == 2) = true) := by
      simp only [beq_iff_eq]
      omega
    have h1 : ¬ ((n == 1) = true) := by
      simp only [beq_iff_eq]
      omega
    have hz : ¬ ((n == 0) = true) := by
      simp only [beq_iff_eq]
      omega
    rw [advisoryFor, if_neg h2, if_neg h1, if_neg hz]
  · intro tt expected st q c t total perDay adv st2 hviews hreq
    have := handleRequest_success_adv tt expected st q c t total perDay adv st2 hreq
    rw [hviews] at this
    rw [this]
    exact ⟨by decide, by decide⟩

/-- Witness for C3: from a session with three successful views (cap-2), the
fourth display yields the final-attempt advisory. -/
theorem claim_C3_advisory_staging_witness :
    handleRequest ttRao ["p1"] ⟨3, false⟩ "rao" none =
      (Outcome.success "A. Rao" 1 [("Mon", 1)] Advisory.finalAttempt,
        (⟨4, false⟩ : SessionState)) ∧
    Advisory.finalAttempt = Advisory.finalAttempt ∧
    Advisory.finalAttempt ≠ Advisory.approachingLimit := by
  refine ⟨by decide, ?_⟩
  exact claim_C3_advisory_staging.2.2 ttRao ["p1"] ⟨3, false⟩ "rao" none "A. Rao" 1
    [("Mon", 1)] Advisory.finalAttempt ⟨4, false⟩ (by decide) (by decide)

/-- Counterexample to claim C4: the cell test of line 60 ignores the column
and the word `skill` entirely — the non-empty zeroth-column cell `Math`
contains no `skill` yet is counted as a period. -/
theorem claim_C4_counterexample :
    ¬ (cellCounts (some "Math") = true ↔ specContainsSkill "Math" = true) ∧
    (count_periods_for_rows [⟨"T", "Mon", [("p0", some "Math")]⟩] ["p0"]).1 = 1 := by
  decide

/-- Claim C4 as amended: for every cell — the zeroth-period column included —
the period-counting predicate is true exactly when the cell is present and
not whitespace-only, independently of whether the text contains `skill`;
consequently the total is the plain count of non-blank cells over all rows
and period columns. -/
theorem claim_C4_amended :
    (∀ (rows : List Row) (expected : List String),
      (count_periods_for_rows rows expected).1 = (rows.map (rowPeriods expected)).sum) ∧
    (∀ s : String, trimStr s ≠ "" → specContainsSkill s = false →
      cellCounts (some s) = true) := by
  refine ⟨count_total_eq, ?_⟩
  intro s hs _
  simp [cellCounts, hs]

/-- Witness for the amended C4 at the cell `Math`. -/
theorem claim_C4_amended_witness :
    trimStr "Math" ≠ "" ∧ specContainsSkill "Math" = false ∧
    cellCounts (some "Math") = true := by
  refine ⟨by decide, by decide, ?_⟩
  exact claim_C4_amended.2 "Math" (by decide) (by decide)

/-- Counterexample to claim C5: the non-zeroth-column cell `Zero Pd` carries
an explicit zero-period marker and no `skill`, yet the code counts it (the
cell test of line 60 only checks for a non-blank value). -/
theorem claim_C5_counterexample :
    specZeroMarker "Zero Pd" = true ∧ specContainsSkill "Zero Pd" = false ∧
    ¬ (cellCounts (some "Zero Pd") = false) ∧
    (count_periods_for_rows [⟨"T", "Mon", [("p1", some "Zero Pd")]⟩] ["p1"]).1 = 1 := by
  decide

/-- Claim C5 as amended: a non-blank cell is counted as a class period even
when its text contains a zero-period marker and no `skill`; blankness is the
only criterion. -/
theorem claim_C5_amended (s : String) (_hm : specZeroMarker s = true)
    (hs : trimStr s ≠ "") :
    cellCounts (some s) = true ∧
    (count_periods_for_rows [⟨"T", "Mon", [("p1", some s)]⟩] ["p1"]).1 = 1 := by
  have hc : cellCounts (some s) = true := by simp [cellCounts, hs]
  refine ⟨hc, ?_⟩
  rw [count_total_eq]
  simp [rowPeriods, cellOf, List.lookup, hc]

/-- Witness for the amended C5 at the cell `Zero Pd`. -/
theorem claim_C5_amended_witness :
    specZeroMarker "Zero Pd" = true ∧ trimStr "Zero Pd" ≠ "" ∧
    cellCounts (some "Zero Pd") = true := by
  refine ⟨by decide, by decide, ?_⟩
  exact (claim_C5_amended "Zero Pd" (by decide) (by decide)).1

/-- Counterexample to claim C6: the per-day sequence of
`count_periods_for_rows` for rows on `Fri` and `Mon` lists `Fri` first
(Python string order), although Monday precedes Friday canonically, so the
output is not ordered by the canonical-weekday index. -/
theorem claim_C6_counterexample :
    ((count_periods_for_rows rowsFriMon ["p1"]).2.map Prod.fst = ["Fri", "Mon"]) ∧
    specCanonicalDayIndex "Mon" < specCanonicalDayIndex "Fri" ∧
    ¬ ((count_periods_for_rows rowsFriMon ["p1"]).2.map Prod.fst).Pairwise
        (fun a b => specCanonicalDayIndex a ≤ specCanonicalDayIndex b) := by
  decide

/-- Claim C6 as amended: for every row set the per-day sequence is ordered
lexicographically by the raw day label string (Python string comparison,
line 64), not by canonical weekday index; no day normalization exists in
the code. -/
theorem claim_C6_amended (rows : List Row) (expected : List String) :
    ((count_periods_for_rows rows expected).2).Pairwise
      (fun a b => pyStrLe a.1 b.1 = true) := by
  simp only [count_periods_for_rows]
  by_cases he : rows.isEmpty = true
  · rw [if_pos he]
    exact List.Pairwise.nil
  · rw [if_neg he]
    exact pairwise_insSortBy (fun (a b : String × Nat) => pyStrLe a.1 b.1)
      (fun u v => pyStrLe_total u.1 v.1)
      (fun u v w huv hvw => pyStrLe_trans u.1 v.1 w.1 huv hvw) _

/-- Claim C7: on any ordering of the columns `[P0, P1, P2, day, tname]`
(normalized by the loader), detection returns exactly `[p0, p1, p2]`; the
sort is numeric on the embedded digit run (`p10` after `p2`), and with no
matching column the fixed fallback `p0..p8` is produced. -/
theorem claim_C7_detect (l : List String)
    (h : l.Perm ["P0", "P1", "P2", "day", "tname"]) :
    detect_period_columns (normalizeCols l) = ["p0", "p1", "p2"] ∧
    detect_period_columns ["day", "tname"] =
      ["p0", "p1", "p2", "p3", "p4", "p5", "p6", "p7", "p8"] ∧
    detect_period_columns ["p2", "p10", "p1"] = ["p1", "p2", "p10"] := by
  refine ⟨?_, by decide, by decide⟩
  have hmem := mem_allPerms_of_perm h
  have hall : (allPerms (["P0", "P1", "P2", "day", "tname"] : List String)).all
      (fun l => detect_period_columns (normalizeCols l) == ["p0", "p1", "p2"]) = true := by
    decide
  exact eq_of_beq (List.all_eq_true.mp hall l hmem)

/-- Witness for C7 at one concrete column order. -/
theorem claim_C7_detect_witness :
    (["day", "tname", "P2", "P0", "P1"] : List String).Perm
      ["P0", "P1", "P2", "day", "tname"] ∧
    detect_period_columns (normalizeCols ["day", "tname", "P2", "P0", "P1"]) =
      ["p0", "p1", "p2"] := by
  refine ⟨by decide, ?_⟩
  exact (claim_C7_detect ["day", "tname", "P2", "P0", "P1"] (by decide)).1

/-- Claim C8, failing input (code bug evidence): the code comment of line 125
and the spec describe case-insensitive exact-or-substring matching, but line
127 interprets the query as a regular expression.  The query `a+b` occurs as
a plain substring of the teacher name `xa+by`, yet the request reports
NotFound, because the regex `a+b` does not match; the 0/1/many routing
itself (NotFound / direct display / AmbiguousMatch with both `Rao`
candidates) behaves as described on literal queries. -/
theorem claim_C8_regex_not_substring :
    substrCI "xa+by" "a+b" = true ∧
    (handleRequest ttPlusSub ["p1"] initState "a+b" none).1 = Outcome.notFound 5 ∧
    (handleRequest ttRao2 ["p1"] initState "rao" none).1 =
      Outcome.ambiguous ["A. Rao", "B. Rao"] ∧
    (handleRequest ttRao ["p1"] initState "rao" none).1 =
      Outcome.success "A. Rao" 1 [("Mon", 1)] Advisory.noAdvisory ∧
    (handleRequest ttRao ["p1"] initState "zzz" none).1 = Outcome.notFound 5 := by
  decide

/-- Claim C9, failing input (code bug evidence): the query `(` is passed
uncompiled to `str.contains`, where `re.compile` raises `re.error` and the
request aborts instead of degrading to a defined outcome; the embedding
records the raised exception as the `regexError` outcome, reached with the
session state untouched. -/
theorem claim_C9_regex_crash :
    (handleRequest ttRao ["p1"] initState "(" none).1 = Outcome.regexError ∧
    (handleRequest ttRao ["p1"] initState "(" none).2 = initState := by
  decide

/-- Claim C10, failing input (code bug evidence): for the query `a+b`
against the teacher name `a+b`, the exact mask matches but the contains
mask does not (the regex `a+b` does not match the text `a+b`), so the
exact-equality check is not subsumed by the containment check and the union
of the two masks differs from the containment mask alone: the name is still
matched and displayed only because of the exact mask. -/
theorem claim_C10_exact_not_subsumed :
    mask_exact "a+b" "a+b" = true ∧
    pyParse (lowerStr "a+b").data =
      some [(PAtom.chr 'a', PQuant.plus), (PAtom.chr 'b', PQuant.one)] ∧
    mask_contains [(PAtom.chr 'a', PQuant.plus), (PAtom.chr 'b', PQuant.one)] "a+b" =
      false ∧
    (handleRequest ttPlusExact ["p1"] initState "a+b" none).1 =
      Outcome.success "a+b" 1 [("Mon", 1)] Advisory.noAdvisory := by
  decide
